import Mathlib

/-!
Shallow embedding of the `codegate` Go package (github.com/singlestore-labs/codegate).

The package exists in two variants, both embedded here:

* `Codegate.Live` — the variant whose `DisabledGates()` re-scans the process
  environment on every call and which recognises the single environment-variable
  name prefix `DISABLE_CODE_` (`codegate.go`).
* `Codegate.Cached` — the variant whose `DisabledGates()` caches its first scan
  until `resetDisabledGates` clears the cache, and which also recognises the
  deprecated prefix `DISABLE_S2CODE_`, consulted only when the primary
  variable is absent.

The process environment is modelled as an ordered association list of
(name, value) pairs; `os.Environ` renders each entry as `name=value` and
`os.LookupEnv` finds the first entry with the given name.  Go's package-level
mutable state (`usedNames`, the `disabledGates` cache) is passed explicitly:
`New` takes and returns the set of used names, the cached `DisabledGates`
takes and returns the cache.  A Go panic is modelled by the `NewResult.panicked`
outcome, which also returns the (unchanged) used-name set.
-/

namespace Codegate

/-- A process environment: the ordered (name, value) pairs of the environment
block, as surfaced by `os.Environ` / `os.LookupEnv`. -/
abbrev Env := List (String × String)

/-- `os.LookupEnv key`: the value of the first variable named `key`, if any.
Only presence (`isSome`) is ever consulted by the package. -/
def lookupEnv (env : Env) (key : String) : Option String :=
  (env.find? (fun p => p.1 == key)).map (fun p => p.2)

/-- `os.Environ()`: every entry rendered as `"name=value"`. -/
def environ (env : Env) : List String :=
  env.map (fun p => p.1 ++ "=" ++ p.2)

/-- Go `struct Gate { name string; enabled bool }`. -/
structure Gate where
  name : String
  enabled : Bool
deriving DecidableEq

/-- The zero value of the `Gate` struct type: in Go every struct type has a
zero value, with string fields `""` and bool fields `false`. -/
def zeroGate : Gate := { name := "", enabled := false }

/-- Go `EnvVarPrefix = "DISABLE_CODE_"`, the primary disable-variable name
prefix. -/
def envVarPfx : String := "DISABLE_CODE_"

/-- Go `envVarPrefix2 = "DISABLE_S2CODE_"`, the deprecated disable-variable
name prefix recognised by the `Cached` variant. -/
def envVarPfx2 : String := "DISABLE_S2CODE_"

/-- Go `nameMaxLength = 100`. -/
def nameMaxLength : Nat := 100

/-- Go `validName.MatchString name` for `validName =
regexp.MustCompile("^[A-Za-z][A-Za-z0-9_]*$")`: nonempty, first character an
ASCII letter, remaining characters ASCII letters, digits or underscore.
(`Char.isAlpha` / `Char.isAlphanum` are exactly the ASCII classes.) -/
def validNameMatch (s : String) : Bool :=
  match s.data with
  | [] => false
  | c :: cs => c.isAlpha && cs.all (fun d => d.isAlphanum || d == '_')

/-- Go `len s` on a string: its byte length (UTF-8). -/
def goLen (s : String) : Nat := s.utf8ByteSize

/-- First component of Go `strings.Cut(s, "=")`: the part of `s` before the
first `=`, or all of `s` when there is none. -/
def cutName (s : String) : String := ⟨s.data.takeWhile (fun c => c != '=')⟩

/-- Go `strings.HasPrefix s pre`. -/
def goHasPfx (s pre : String) : Bool := pre.data.isPrefixOf s.data

/-- Go `strings.TrimPrefix s pre`: `s` without its leading `pre` when present,
otherwise `s` unchanged. -/
def goTrimPfx (s pre : String) : String :=
  if goHasPfx s pre then ⟨s.data.drop pre.data.length⟩ else s

/-- Outcome of a call to `New`: a gate, or a Go panic. -/
inductive NewResult where
  | ok (g : Gate)
  | panicked
deriving DecidableEq

/-- Go `func (gate Gate) Enabled() bool { return gate.enabled }`. -/
def Gate.Enabled (g : Gate) : Bool := g.enabled

/-- Go `func (gate Gate) Name() string { return gate.name }`. -/
def Gate.Name (g : Gate) : String := g.name

/-- Go `func (gate Gate) String() string`: `fmt.Sprintf("code gate %s", name)`
then `" (enabled)"` or `" (disabled)"` appended depending on the field. -/
def Gate.gateString (g : Gate) : String :=
  let label := "code gate " ++ g.name
  if g.enabled then label ++ " (enabled)" else label ++ " (disabled)"

/-- A call of `Gate.Enabled` made while the ambient process environment is
`callEnv`.  As in the source, the method body reads only the receiver's
field; the ambient environment is in scope but unused. -/
def enabledAt (_callEnv : Env) (g : Gate) : Bool := g.Enabled

namespace Live

/-- Go `func New(name string) Gate` of the live-scan variant (`codegate.go`):
panic when the name fails the regexp or exceeds `nameMaxLength` bytes; panic
when the name is already in `usedNames`; otherwise record the name and build
the gate, enabled iff `os.LookupEnv(EnvVarPrefix + name)` reports absence.
The `usedNames` set is passed and returned explicitly. -/
def New (env : Env) (used : List String) (name : String) : NewResult × List String :=
  if (validNameMatch name = false) ∨ (nameMaxLength < goLen name) then
    (NewResult.panicked, used)
  else if used.contains name = true then
    (NewResult.panicked, used)
  else
    (NewResult.ok { name := name, enabled := !(lookupEnv env (envVarPfx ++ name)).isSome },
     name :: used)

/-- The loop body of the live-scan variant's `DisabledGates`: with
`envName := cutName e`, keep `envName` stripped of the prefix when it carries
the prefix. -/
def scanEntry (e : String) : Option String :=
  if goHasPfx (cutName e) envVarPfx then some (goTrimPfx (cutName e) envVarPfx) else none

/-- Go `func DisabledGates() []string` of the live-scan variant: for each
`os.Environ()` entry, cut at the first `=`, keep the names carrying the
prefix, stripped of it. -/
def DisabledGates (env : Env) : List String :=
  (environ env).filterMap scanEntry

end Live

namespace Cached

/-- Go `func New(name string) Gate` of the cached variant: same validation and
registration as `Live.New`, but the primary prefix lookup is followed, only
when it reports absence, by a lookup of the deprecated prefix. -/
def New (env : Env) (used : List String) (name : String) : NewResult × List String :=
  if (validNameMatch name = false) ∨ (nameMaxLength < goLen name) then
    (NewResult.panicked, used)
  else if used.contains name = true then
    (NewResult.panicked, used)
  else
    let disabled := (lookupEnv env (envVarPfx ++ name)).isSome
    let disabled := if !disabled then (lookupEnv env (envVarPfx2 ++ name)).isSome else disabled
    (NewResult.ok { name := name, enabled := !disabled }, name :: used)

/-- The loop body of the cached variant's scan: with `envName := cutName e`,
names carrying the primary prefix are kept stripped of it; otherwise names
carrying the deprecated prefix are kept stripped of that one. -/
def scanEntry (e : String) : Option String :=
  if goHasPfx (cutName e) envVarPfx then some (goTrimPfx (cutName e) envVarPfx)
  else if goHasPfx (cutName e) envVarPfx2 then some (goTrimPfx (cutName e) envVarPfx2)
  else none

/-- The environment scan inside the cached variant's `DisabledGates`. -/
def scanDisabledGates (env : Env) : List String :=
  (environ env).filterMap scanEntry

/-- Go `func DisabledGates() []string` of the cached variant: when the cache
(`disabledGates`, nil-able slice modelled as `Option`) is empty, scan and fill
it; always return the cache contents.  The cache is passed and returned
explicitly. -/
def DisabledGates (cache : Option (List String)) (env : Env) :
    List String × Option (List String) :=
  match cache with
  | none => let l := scanDisabledGates env; (l, some l)
  | some l => (l, some l)

/-- Go `func resetDisabledGates()`: clear the cache back to nil. -/
def resetDisabledGates (_cache : Option (List String)) : Option (List String) :=
  none

end Cached

/-- Well-formedness of a modelled environment: variable names contain no `=`,
as guaranteed by the OS environment block's `name=value` encoding. -/
def envWf (env : Env) : Bool :=
  env.all (fun p => p.1.data.all (fun c => c != '='))

/-! ### Helper lemmas about the string primitives -/

theorem strEq_of_data {s t : String} (h : s.data = t.data) : s = t := by
  cases s
  cases t
  exact congrArg String.mk h

theorem takeWhile_append_stop (l r : List Char) (h : ∀ c ∈ l, (c != '=') = true) :
    (l ++ '=' :: r).takeWhile (fun c => c != '=') = l := by
  induction l with
  | nil => simp
  | cons a as ih =>
    have ha := h a (by simp)
    simp [List.takeWhile_cons, ha, ih (fun c hc => h c (by simp [hc]))]

theorem cutName_entry (k v : String) (hk : k.data.all (fun c => c != '=') = true) :
    cutName (k ++ "=" ++ v) = k := by
  apply strEq_of_data
  show ((k ++ "=" ++ v).data.takeWhile (fun c => c != '=')) = k.data
  rw [String.data_append, String.data_append]
  rw [show ("=" : String).data = ['='] from rfl, List.append_assoc, List.singleton_append]
  exact takeWhile_append_stop _ _ (List.all_eq_true.mp hk)

theorem envWf_name {env : Env} (hwf : envWf env = true) {k v : String}
    (h : (k, v) ∈ env) : k.data.all (fun c => c != '=') = true := by
  have h2 := List.all_eq_true.mp
    (show env.all (fun p => p.1.data.all (fun c => c != '=')) = true from hwf) (k, v) h
  simpa using h2

theorem goHasPfx_append (pre s : String) : goHasPfx (pre ++ s) pre = true := by
  unfold goHasPfx
  apply List.isPrefixOf_iff_prefix.mpr
  rw [String.data_append]
  exact List.prefix_append _ _

theorem trim_append (pre s : String) : goTrimPfx (pre ++ s) pre = s := by
  apply strEq_of_data
  unfold goTrimPfx
  rw [if_pos (goHasPfx_append pre s)]
  show (pre ++ s).data.drop pre.data.length = s.data
  rw [String.data_append, List.drop_left]

theorem mem_live_disabledGates_iff (env : Env) (hwf : envWf env = true) (s : String) :
    s ∈ Live.DisabledGates env ↔ ∃ v, (envVarPfx ++ s, v) ∈ env := by
  unfold Live.DisabledGates environ
  constructor
  · intro hs
    obtain ⟨e, he, hfe⟩ := List.mem_filterMap.mp hs
    obtain ⟨⟨k, v⟩, hkv, rfl⟩ := List.mem_map.mp he
    unfold Live.scanEntry at hfe
    rw [cutName_entry k v (envWf_name hwf hkv)] at hfe
    by_cases hp : goHasPfx k envVarPfx = true
    · rw [if_pos hp, Option.some.injEq] at hfe
      obtain ⟨t, ht⟩ := List.isPrefixOf_iff_prefix.mp hp
      refine ⟨v, ?_⟩
      have hk : k = envVarPfx ++ s := by
        apply strEq_of_data
        rw [String.data_append, ← ht]
        congr 1
        rw [← hfe]
        unfold goTrimPfx
        rw [if_pos hp]
        show t = k.data.drop envVarPfx.data.length
        rw [← ht, List.drop_left]
      rw [← hk]
      exact hkv
    · rw [if_neg hp] at hfe
      exact absurd hfe (by simp)
  · rintro ⟨v, hv⟩
    apply List.mem_filterMap.mpr
    refine ⟨(envVarPfx ++ s) ++ "=" ++ v, List.mem_map.mpr ⟨(envVarPfx ++ s, v), hv, rfl⟩, ?_⟩
    unfold Live.scanEntry
    rw [cutName_entry _ _ (envWf_name hwf hv)]
    rw [if_pos (goHasPfx_append envVarPfx s), trim_append]

theorem pfx_not_of_pfx2 (l : List Char) :
    envVarPfx.data.isPrefixOf (envVarPfx2.data ++ l) = false := by
  cases hb : envVarPfx.data.isPrefixOf (envVarPfx2.data ++ l) with
  | false => rfl
  | true =>
    exfalso
    obtain ⟨t, ht⟩ := List.isPrefixOf_iff_prefix.mp hb
    have h13 := congrArg (List.take 13) ht
    rw [List.take_append_of_le_length (by decide),
      List.take_append_of_le_length (by decide)] at h13
    exact absurd h13 (by decide)

theorem mem_cached_scan_iff (env : Env) (hwf : envWf env = true) (s : String) :
    s ∈ Cached.scanDisabledGates env ↔
      ∃ v, ((envVarPfx ++ s, v) ∈ env ∨ (envVarPfx2 ++ s, v) ∈ env) := by
  unfold Cached.scanDisabledGates environ
  constructor
  · intro hs
    obtain ⟨e, he, hfe⟩ := List.mem_filterMap.mp hs
    obtain ⟨⟨k, v⟩, hkv, rfl⟩ := List.mem_map.mp he
    unfold Cached.scanEntry at hfe
    rw [cutName_entry k v (envWf_name hwf hkv)] at hfe
    by_cases hp : goHasPfx k envVarPfx = true
    · rw [if_pos hp, Option.some.injEq] at hfe
      obtain ⟨t, ht⟩ := List.isPrefixOf_iff_prefix.mp hp
      refine ⟨v, Or.inl ?_⟩
      have hk : k = envVarPfx ++ s := by
        apply strEq_of_data
        rw [String.data_append, ← ht]
        congr 1
        rw [← hfe]
        unfold goTrimPfx
        rw [if_pos hp]
        show t = k.data.drop envVarPfx.data.length
        rw [← ht, List.drop_left]
      rw [← hk]
      exact hkv
    · rw [if_neg hp] at hfe
      by_cases hp2 : goHasPfx k envVarPfx2 = true
      · rw [if_pos hp2, Option.some.injEq] at hfe
        obtain ⟨t, ht⟩ := List.isPrefixOf_iff_prefix.mp hp2
        refine ⟨v, Or.inr ?_⟩
        have hk : k = envVarPfx2 ++ s := by
          apply strEq_of_data
          rw [String.data_append, ← ht]
          congr 1
          rw [← hfe]
          unfold goTrimPfx
          rw [if_pos hp2]
          show t = k.data.drop envVarPfx2.data.length
          rw [← ht, List.drop_left]
        rw [← hk]
        exact hkv
      · rw [if_neg hp2] at hfe
        exact absurd hfe (by simp)
  · rintro ⟨v, hv | hv⟩
    · apply List.mem_filterMap.mpr
      refine ⟨(envVarPfx ++ s) ++ "=" ++ v, List.mem_map.mpr ⟨(envVarPfx ++ s, v), hv, rfl⟩, ?_⟩
      unfold Cached.scanEntry
      rw [cutName_entry _ _ (envWf_name hwf hv)]
      rw [if_pos (goHasPfx_append envVarPfx s), trim_append]
    · apply List.mem_filterMap.mpr
      refine ⟨(envVarPfx2 ++ s) ++ "=" ++ v, List.mem_map.mpr ⟨(envVarPfx2 ++ s, v), hv, rfl⟩, ?_⟩
      unfold Cached.scanEntry
      rw [cutName_entry _ _ (envWf_name hwf hv)]
      have hn : goHasPfx (envVarPfx2 ++ s) envVarPfx = false := by
        unfold goHasPfx
        rw [String.data_append]
        exact pfx_not_of_pfx2 s.data
      rw [if_neg (by simp [hn]), if_pos (goHasPfx_append envVarPfx2 s), trim_append]

/-! ### Helper lemmas about gate construction -/

theorem live_new_ok {env : Env} {used : List String} {name : String} {g : Gate}
    {u : List String} (h : Live.New env used name = (NewResult.ok g, u)) :
    g = { name := name, enabled := !(lookupEnv env (envVarPfx ++ name)).isSome } ∧
      u = name :: used := by
  unfold Live.New at h
  by_cases h1 : (validNameMatch name = false) ∨ (nameMaxLength < goLen name)
  · rw [if_pos h1] at h
    simp at h
  · rw [if_neg h1] at h
    by_cases h2 : used.contains name = true
    · rw [if_pos h2] at h
      simp at h
    · rw [if_neg h2] at h
      simp only [Prod.mk.injEq, NewResult.ok.injEq] at h
      exact ⟨h.1.symm, h.2.symm⟩

theorem cached_new_ok {env : Env} {used : List String} {name : String} {g : Gate}
    {u : List String} (h : Cached.New env used name = (NewResult.ok g, u)) :
    g = { name := name,
          enabled := !((lookupEnv env (envVarPfx ++ name)).isSome ||
                       (lookupEnv env (envVarPfx2 ++ name)).isSome) } ∧
      u = name :: used := by
  unfold Cached.New at h
  by_cases h1 : (validNameMatch name = false) ∨ (nameMaxLength < goLen name)
  · rw [if_pos h1] at h
    simp at h
  · rw [if_neg h1] at h
    by_cases h2 : used.contains name = true
    · rw [if_pos h2] at h
      simp at h
    · rw [if_neg h2] at h
      cases hd1 : (lookupEnv env (envVarPfx ++ name)).isSome <;>
        cases hd2 : (lookupEnv env (envVarPfx2 ++ name)).isSome <;>
        · simp only [hd1, hd2] at h
          simp only [Prod.mk.injEq, NewResult.ok.injEq] at h
          simp [← h.1, ← h.2]

/-- The negation of the regexp match, characterised the way the specification
words it: empty, or leading character not an ASCII letter, or some character
outside `[A-Za-z0-9_]`. -/
theorem validNameMatch_eq_false_iff (name : String) :
    validNameMatch name = false ↔
      (name.data = [] ∨
       (∃ c, name.data.head? = some c ∧ c.isAlpha = false) ∨
       (∃ c ∈ name.data, (c.isAlphanum || c == '_') = false)) := by
  cases hd : name.data with
  | nil =>
    have hv : validNameMatch name = false := by
      unfold validNameMatch
      rw [hd]
    simp [hv, hd]
  | cons c cs =>
    have hv : validNameMatch name = (c.isAlpha && cs.all (fun d => d.isAlphanum || d == '_')) := by
      unfold validNameMatch
      rw [hd]
    rw [hv]
    constructor
    · intro h
      rcases Bool.and_eq_false_iff.mp h with hA | hall
      · exact Or.inr (Or.inl ⟨c, rfl, hA⟩)
      · obtain ⟨d, hdm, hnw⟩ := List.all_eq_false.mp hall
        refine Or.inr (Or.inr ⟨d, List.mem_cons_of_mem c hdm, ?_⟩)
        simpa using hnw
    · rintro (habs | ⟨c', hc', hA⟩ | ⟨d, hdm, hw⟩)
      · exact absurd habs (List.cons_ne_nil c cs)
      · simp only [List.head?_cons, Option.some.injEq] at hc'
        subst hc'
        exact Bool.and_eq_false_iff.mpr (Or.inl hA)
      · rcases List.mem_cons.mp hdm with rfl | hdm'
        · refine Bool.and_eq_false_iff.mpr (Or.inl ?_)
          cases hAc : d.isAlpha with
          | false => rfl
          | true => simp [Char.isAlphanum, hAc] at hw
        · refine Bool.and_eq_false_iff.mpr (Or.inr (List.all_eq_false.mpr ⟨d, hdm', ?_⟩))
          simp [hw]

/-- Invalidity of a candidate gate name as the amended claim words it: empty,
leading character not a letter, a character outside `[A-Za-z0-9_]`, or byte
length above `nameMaxLength`. -/
def amendedInvalid (name : String) : Prop :=
  name.data = [] ∨
  (∃ c, name.data.head? = some c ∧ c.isAlpha = false) ∨
  (∃ c ∈ name.data, (c.isAlphanum || c == '_') = false) ∨
  nameMaxLength < goLen name

theorem amendedInvalid_iff (name : String) :
    amendedInvalid name ↔ ((validNameMatch name = false) ∨ (nameMaxLength < goLen name)) := by
  unfold amendedInvalid
  rw [validNameMatch_eq_false_iff]
  constructor
  · rintro (h | h | h | h)
    · exact Or.inl (Or.inl h)
    · exact Or.inl (Or.inr (Or.inl h))
    · exact Or.inl (Or.inr (Or.inr h))
    · exact Or.inr h
  · rintro ((h | h | h) | h)
    · exact Or.inl h
    · exact Or.inr (Or.inl h)
    · exact Or.inr (Or.inr (Or.inl h))
    · exact Or.inr (Or.inr (Or.inr h))

/-! ### Claim theorems -/

/-- C1: for every name accepted by `New`, the returned gate has
`Enabled() = true` if and only if no disable environment variable matching
that name is present at construction time — for the live variant the primary
variable, for the cached variant either the primary or the deprecated one. -/
theorem c1_enabled_iff_no_disable_var (env : Env) (used : List String) (name : String)
    (g g2 : Gate) (u u2 : List String) :
    (Live.New env used name = (NewResult.ok g, u) →
      (g.Enabled = true ↔ lookupEnv env (envVarPfx ++ name) = none)) ∧
    (Cached.New env used name = (NewResult.ok g2, u2) →
      (g2.Enabled = true ↔
        (lookupEnv env (envVarPfx ++ name) = none ∧
         lookupEnv env (envVarPfx2 ++ name) = none))) := by
  constructor
  · intro h
    rcases live_new_ok h with ⟨rfl, -⟩
    cases hl : lookupEnv env (envVarPfx ++ name) <;> simp [Gate.Enabled]
  · intro h
    rcases cached_new_ok h with ⟨rfl, -⟩
    cases hl1 : lookupEnv env (envVarPfx ++ name) <;>
      cases hl2 : lookupEnv env (envVarPfx2 ++ name) <;>
        simp [Gate.Enabled]

theorem c1_enabled_iff_no_disable_var_w :
    ((Gate.mk ("A") true).Enabled = true ↔
      lookupEnv ([] : Env) (envVarPfx ++ ("A")) = none) ∧
    ((Gate.mk ("A") true).Enabled = true ↔
      (lookupEnv ([] : Env) (envVarPfx ++ ("A")) = none ∧
       lookupEnv ([] : Env) (envVarPfx2 ++ ("A")) = none)) := by
  have h := c1_enabled_iff_no_disable_var [] [] ("A")
    (Gate.mk ("A") true) (Gate.mk ("A") true) (["A"]) (["A"])
  exact ⟨h.1 (by decide), h.2 (by decide)⟩

/-- C2: every string matching the regexp, at most 100 bytes long and not yet
registered makes `New` succeed, register the name, and return a gate with
`Name() = name` and `Enabled() = true` when no disable-variable is set. -/
theorem c2_valid_name_new_succeeds (env : Env) (used : List String) (name : String)
    (h1 : validNameMatch name = true) (h2 : goLen name ≤ nameMaxLength)
    (h3 : used.contains name = false)
    (h4 : lookupEnv env (envVarPfx ++ name) = none) :
    ∃ g : Gate, Live.New env used name = (NewResult.ok g, name :: used) ∧
      g.Name = name ∧ g.Enabled = true := by
  refine ⟨{ name := name, enabled := true }, ?_, rfl, rfl⟩
  have hn1 : ¬ ((validNameMatch name = false) ∨ (nameMaxLength < goLen name)) := by
    rintro (hf | hl)
    · rw [h1] at hf
      exact Bool.noConfusion hf
    · omega
  have hn2 : ¬ (used.contains name = true) := by
    rw [h3]
    simp
  unfold Live.New
  rw [if_neg hn1, if_neg hn2, h4]
  rfl

theorem c2_valid_name_new_succeeds_w :
    ∃ g : Gate, Live.New ([] : Env) ([] : List String) ("A") =
        (NewResult.ok g, ("A") :: ([] : List String)) ∧
      g.Name = ("A") ∧ g.Enabled = true :=
  c2_valid_name_new_succeeds [] [] ("A") (by decide) (by decide) (by decide) (by decide)

/-- C3 counterexample: the name `"_A"` is not empty, its leading character is
the underscore (not a digit), all of its characters lie inside
`[A-Za-z0-9_]`, its byte length is within bounds, and it is not yet
registered — so by the claim `New` should not fail — yet `New` panics on it
(the regexp requires a leading letter). -/
theorem c3_counterexample :
    (("_A" : String).data ≠ []) ∧
    (("_A" : String).data.head? = some '_') ∧
    ('_'.isDigit = false) ∧
    (∀ c ∈ ("_A" : String).data, (c.isAlphanum || c == '_') = true) ∧
    goLen ("_A") ≤ nameMaxLength ∧
    (([] : List String).contains ("_A") = false) ∧
    (Live.New ([] : Env) ([] : List String) ("_A")).1 = NewResult.panicked := by
  decide

/-- C3 (amended): `New` fails fatally exactly when the candidate name is
invalid — empty, leading character not a letter, any character outside
`[A-Za-z0-9_]`, or byte length greater than 100 — or has already been
registered; and on every fatal failure the registered-name set is left
unchanged by that call. -/
theorem c3_new_panic_iff (env : Env) (used : List String) (name : String) :
    ((Live.New env used name).1 = NewResult.panicked ↔
      (amendedInvalid name ∨ used.contains name = true)) ∧
    ((Live.New env used name).1 = NewResult.panicked →
      (Live.New env used name).2 = used) := by
  unfold Live.New
  by_cases h1 : (validNameMatch name = false) ∨ (nameMaxLength < goLen name)
  · rw [if_pos h1]
    exact ⟨⟨fun _ => Or.inl ((amendedInvalid_iff name).mpr h1), fun _ => rfl⟩, fun _ => rfl⟩
  · rw [if_neg h1]
    by_cases h2 : used.contains name = true
    · rw [if_pos h2]
      exact ⟨⟨fun _ => Or.inr h2, fun _ => rfl⟩, fun _ => rfl⟩
    · rw [if_neg h2]
      constructor
      · constructor
        · intro hx
          exact absurd hx (by simp)
        · rintro (hinv | hdup)
          · exact absurd ((amendedInvalid_iff name).mp hinv) h1
          · exact absurd hdup h2
      · intro hx
        exact absurd hx (by simp)

theorem c3_new_panic_iff_w :
    (Live.New ([] : Env) ([] : List String) ("1")).1 = NewResult.panicked ∧
    (Live.New ([] : Env) ([] : List String) ("1")).2 = ([] : List String) := by
  have h := c3_new_panic_iff [] [] ("1")
  have hinv : amendedInvalid ("1") := Or.inr (Or.inl ⟨'1', by decide, by decide⟩)
  have hp := h.1.mpr (Or.inl hinv)
  exact ⟨hp, h.2 hp⟩

/-- C4: a string `s` is an element of the sequence returned by
`DisabledGates` (for the cached variant: of a first, freshly scanned call) if
and only if the environment contains a variable named exactly a configured
disable-prefix concatenated with `s`; hence names never passed to `New` may
appear and variables without the prefix never contribute. -/
theorem c4_disabled_gates_membership (env : Env) (hwf : envWf env = true) (s : String) :
    (s ∈ Live.DisabledGates env ↔ ∃ v, (envVarPfx ++ s, v) ∈ env) ∧
    (s ∈ (Cached.DisabledGates none env).1 ↔
      ∃ v, ((envVarPfx ++ s, v) ∈ env ∨ (envVarPfx2 ++ s, v) ∈ env)) :=
  ⟨mem_live_disabledGates_iff env hwf s, mem_cached_scan_iff env hwf s⟩

theorem c4_disabled_gates_membership_w :
    ("FOO" : String) ∈ Live.DisabledGates
      ([(("NOISE" : String), ("LOUD" : String)),
        (("DISABLE_CODE_FOO" : String), ("" : String))]) :=
  (c4_disabled_gates_membership _ (by decide) ("FOO")).1.mpr ⟨("" : String), by decide⟩

/-- C5: the value of `Enabled()` on a constructed gate is independent of the
process environment at the time of the call — two calls under different
ambient environments agree — and equals the value fixed by the environment
seen at construction time. -/
theorem c5_enabled_env_independent (env0 : Env) (used : List String) (name : String)
    (g : Gate) (u : List String) (e1 e2 : Env)
    (h : Live.New env0 used name = (NewResult.ok g, u)) :
    enabledAt e1 g = enabledAt e2 g ∧
      enabledAt e1 g = !(lookupEnv env0 (envVarPfx ++ name)).isSome := by
  rcases live_new_ok h with ⟨rfl, -⟩
  exact ⟨rfl, rfl⟩

theorem c5_enabled_env_independent_w :
    enabledAt ([(("DISABLE_CODE_A" : String), ("" : String))]) (Gate.mk ("A") true) =
        enabledAt ([] : Env) (Gate.mk ("A") true) ∧
      enabledAt ([(("DISABLE_CODE_A" : String), ("" : String))]) (Gate.mk ("A") true) =
        !(lookupEnv ([] : Env) (envVarPfx ++ ("A"))).isSome :=
  c5_enabled_env_independent [] [] ("A") (Gate.mk ("A") true) (["A"]) _ _ (by decide)

/-- C6: in the variant supporting the deprecated prefix, the constructed gate
has `Enabled() = false` iff at least one of the two variables is present at
construction time; the primary variable alone already settles disablement
(the legacy variable matters only when the primary one is absent). -/
theorem c6_deprecated_prefix (env : Env) (used : List String) (name : String)
    (g : Gate) (u : List String)
    (h : Cached.New env used name = (NewResult.ok g, u)) :
    (g.Enabled = false ↔
      ((lookupEnv env (envVarPfx ++ name)).isSome = true ∨
       (lookupEnv env (envVarPfx2 ++ name)).isSome = true)) ∧
    ((lookupEnv env (envVarPfx ++ name)).isSome = true → g.Enabled = false) := by
  rcases cached_new_ok h with ⟨rfl, -⟩
  cases hl1 : (lookupEnv env (envVarPfx ++ name)).isSome <;>
    cases hl2 : (lookupEnv env (envVarPfx2 ++ name)).isSome <;>
      simp [Gate.Enabled]

theorem c6_deprecated_prefix_w :
    ((Gate.mk ("X") false).Enabled = false ↔
      ((lookupEnv ([(("DISABLE_S2CODE_X" : String), ("" : String))])
          (envVarPfx ++ ("X"))).isSome = true ∨
       (lookupEnv ([(("DISABLE_S2CODE_X" : String), ("" : String))])
          (envVarPfx2 ++ ("X"))).isSome = true)) ∧
    ((lookupEnv ([(("DISABLE_S2CODE_X" : String), ("" : String))])
        (envVarPfx ++ ("X"))).isSome = true →
      (Gate.mk ("X") false).Enabled = false) :=
  c6_deprecated_prefix ([(("DISABLE_S2CODE_X" : String), ("" : String))]) []
    ("X") (Gate.mk ("X") false) (["X"]) (by decide)

/-- C7: in the cached variant, the first call scans the environment and caches
the result; a later call returns the cached sequence unchanged, whatever the
environment then is; after `resetDisabledGates` the next call rescans. -/
theorem c7_cached_refresh (e1 e2 e3 : Env) (l : List String) :
    (Cached.DisabledGates none e1).1 = Cached.scanDisabledGates e1 ∧
    (Cached.DisabledGates none e1).2 = some (Cached.scanDisabledGates e1) ∧
    Cached.DisabledGates (some l) e2 = (l, some l) ∧
    (Cached.DisabledGates (Cached.DisabledGates none e1).2 e2).1 =
      (Cached.DisabledGates none e1).1 ∧
    (Cached.DisabledGates
        (Cached.resetDisabledGates
          (Cached.DisabledGates (Cached.DisabledGates none e1).2 e2).2) e3).1 =
      Cached.scanDisabledGates e3 :=
  ⟨rfl, rfl, rfl, rfl, rfl⟩

/-- C8: the human-readable form of a gate is exactly the label
`"code gate "` + name + `" (enabled)"` precisely when the gate is enabled,
and + `" (disabled)"` precisely when it is disabled. -/
theorem c8_string_form (g : Gate) :
    (Gate.gateString g = ("code gate " ++ g.Name) ++ " (enabled)" ↔ g.Enabled = true) ∧
    (Gate.gateString g = ("code gate " ++ g.Name) ++ " (disabled)" ↔ g.Enabled = false) := by
  have hne : ∀ n : String,
      (("code gate " ++ n) ++ " (enabled)") ≠ (("code gate " ++ n) ++ " (disabled)") := by
    intro n hcontra
    have hdata := congrArg String.data hcontra
    rw [String.data_append, String.data_append] at hdata
    exact absurd (List.append_cancel_left hdata) (by decide)
  obtain ⟨n, e⟩ := g
  cases e with
  | true =>
    refine ⟨⟨fun _ => rfl, fun _ => rfl⟩, ⟨fun hx => ?_, fun hx => Bool.noConfusion hx⟩⟩
    exact absurd hx (hne n)
  | false =>
    refine ⟨⟨fun hx => ?_, fun hx => Bool.noConfusion hx⟩, ⟨fun _ => rfl, fun _ => rfl⟩⟩
    exact absurd hx.symm (hne n)

/-- C9: the zero value of the `Gate` type is reachable without calling `New`;
its `Name()` is the empty string — a name `New` rejects — and its `Enabled()`
is `false`: it behaves as a disabled, unregistered gate. -/
theorem c9_zero_gate :
    zeroGate.Name = ("" : String) ∧ zeroGate.Enabled = false ∧
    validNameMatch zeroGate.Name = false ∧
    (Live.New ([] : Env) ([] : List String) zeroGate.Name).1 = NewResult.panicked := by
  decide

/-- C10: `DisabledGates` applies no validation to the returned suffixes: any
environment variable named prefix + `s`, with `s` a string `New` would
reject — the empty string included — still contributes `s` to the result. -/
theorem c10_no_validation (env : Env) (s v : String) (hwf : envWf env = true)
    (hmem : (envVarPfx ++ s, v) ∈ env) (_hinv : validNameMatch s = false) :
    s ∈ Live.DisabledGates env :=
  (mem_live_disabledGates_iff env hwf s).mpr ⟨v, hmem⟩

theorem c10_no_validation_w :
    ("" : String) ∈ Live.DisabledGates ([(("DISABLE_CODE_" : String), ("" : String))]) :=
  c10_no_validation _ ("") ("") (by decide) (by decide) (by decide)

end Codegate
